import Mathlib

/-
Verification of the TreeGenLLM core (src/TreeGenLLM/__init__ .py) against its
specification.  The Python code is shallowly embedded: Python numbers are
modelled exactly (floats as rationals plus the special values inf, -inf, nan,
with Python's comparison semantics for the specials), Python values as the
inductive PVal, dicts as association lists in insertion order, and fallible
code (expressions that can raise) as Option-valued functions where the source
does not catch the exception.
-/

/-- Model of a Python float: an exact rational, or one of the special values.
Finite doubles are idealised as exact rationals; nan and the infinities keep
Python's comparison behaviour (every comparison with nan is false). -/
inductive PyFloat where
  | fin (q : ℚ)
  | inf
  | ninf
  | nan
deriving DecidableEq

namespace PyFloat

/-- Python `a < b` on floats: false whenever nan is involved. -/
def lt : PyFloat → PyFloat → Bool
  | fin q, fin r => decide (q < r)
  | fin _, inf => true
  | ninf, fin _ => true
  | ninf, inf => true
  | _, _ => false

/-- Python builtin `max(a, b)`: returns `b` only when `b > a`, so nan in the
first position survives and nan in the second position is discarded. -/
def pymax (a b : PyFloat) : PyFloat := if lt a b then b else a

/-- Python builtin `min(a, b)`: returns `b` only when `b < a`. -/
def pymin (a b : PyFloat) : PyFloat := if lt b a then b else a

/-- Python float `==` (nan is not equal to anything, including itself). -/
def eqb : PyFloat → PyFloat → Bool
  | fin q, fin r => q == r
  | inf, inf => true
  | ninf, ninf => true
  | _, _ => false

/-- Python float `<=`, used to state range membership. -/
def leb (a b : PyFloat) : Bool := lt a b || eqb a b

def add : PyFloat → PyFloat → PyFloat
  | nan, _ => nan
  | _, nan => nan
  | inf, ninf => nan
  | ninf, inf => nan
  | inf, _ => inf
  | _, inf => inf
  | ninf, _ => ninf
  | _, ninf => ninf
  | fin q, fin r => fin (q + r)

def neg : PyFloat → PyFloat
  | nan => nan
  | inf => ninf
  | ninf => inf
  | fin q => fin (-q)

def sub (a b : PyFloat) : PyFloat := add a (neg b)

def abs : PyFloat → PyFloat
  | nan => nan
  | inf => inf
  | ninf => inf
  | fin q => fin |q|

def mul : PyFloat → PyFloat → PyFloat
  | nan, _ => nan
  | _, nan => nan
  | inf, inf => inf
  | inf, ninf => ninf
  | ninf, inf => ninf
  | ninf, ninf => inf
  | inf, fin q => if q = 0 then nan else if 0 < q then inf else ninf
  | fin q, inf => if q = 0 then nan else if 0 < q then inf else ninf
  | ninf, fin q => if q = 0 then nan else if 0 < q then ninf else inf
  | fin q, ninf => if q = 0 then nan else if 0 < q then ninf else inf
  | fin q, fin r => fin (q * r)

/-- Python float division; `none` models the ZeroDivisionError raised on a
zero divisor (checked before nan propagation, as in CPython). -/
def div (a b : PyFloat) : Option PyFloat :=
  match b with
  | fin r =>
    if r = 0 then none
    else
      match a with
      | nan => some nan
      | fin q => some (fin (q / r))
      | inf => some (if 0 < r then inf else ninf)
      | ninf => some (if 0 < r then ninf else inf)
  | inf =>
    match a with
    | nan => some nan
    | fin _ => some (fin 0)
    | inf => some nan
    | ninf => some nan
  | ninf =>
    match a with
    | nan => some nan
    | fin _ => some (fin 0)
    | inf => some nan
    | ninf => some nan
  | nan => some nan

end PyFloat

/-- A Python value as it occurs in this program: None, int, float, bool or
str.  bool is kept separate from int even though Python's bool is an int
subclass; the subclass behaviour is reproduced in the conversion and
comparison functions below. -/
inductive PVal where
  | none
  | int (n : ℤ)
  | float (f : PyFloat)
  | bool (b : Bool)
  | str (s : String)
deriving DecidableEq

/-- Truncation toward zero, the behaviour of Python `int()` on a float. -/
def qtrunc (q : ℚ) : ℤ := if 0 ≤ q then ⌊q⌋ else -⌊-q⌋

/-- Python `round()` with one argument: round half to even. -/
def roundHalfEven (q : ℚ) : ℤ :=
  let f := ⌊q⌋
  let r := q - f
  if r < 1 / 2 then f
  else if 1 / 2 < r then f + 1
  else if f % 2 = 0 then f else f + 1

/-- Python `round(float)`: raises (none) on nan and the infinities. -/
def roundPyF : PyFloat → Option ℤ
  | .fin q => some (roundHalfEven q)
  | _ => none

def digitsToNat? (cs : List Char) : Option ℕ :=
  if cs.isEmpty then none
  else if cs.all Char.isDigit then
    some (cs.foldl (fun a c => a * 10 + (c.toNat - 48)) 0)
  else none

/-- ASCII whitespace stripping (the behaviour of Python str.strip() for the
inputs of this program), implemented structurally. -/
def isSpaceChar (c : Char) : Bool :=
  c = ' ' || c = Char.ofNat 9 || c = Char.ofNat 10 || c = Char.ofNat 13 ||
    c = Char.ofNat 11 || c = Char.ofNat 12

def trimChars (cs : List Char) : List Char :=
  ((cs.dropWhile isSpaceChar).reverse.dropWhile isSpaceChar).reverse

def pyStrip (s : String) : String := String.mk (trimChars s.toList)

def splitOnChar (sep : Char) : List Char → List (List Char)
  | [] => [[]]
  | c :: rest =>
    match splitOnChar sep rest with
    | [] => [[]]
    | g :: gs => if c = sep then [] :: g :: gs else (c :: g) :: gs

/-- Decimal mantissa of a float literal: digits, optionally with one point,
at least one digit overall (Python accepts "1.", ".5", rejects "."). -/
def parseMantissa (cs : List Char) : Option ℚ :=
  match cs.splitOn '.' with
  | [ip] => (digitsToNat? ip).map (fun n => (n : ℚ))
  | [ip, fp] =>
    if ip.isEmpty && fp.isEmpty then none
    else
      match (if ip.isEmpty then some 0 else digitsToNat? ip),
            (if fp.isEmpty then some 0 else digitsToNat? fp) with
      | some a, some b => some ((a : ℚ) + (b : ℚ) / ((10 : ℚ) ^ fp.length))
      | _, _ => none
  | _ => none

def parseExp (cs : List Char) : Option ℤ :=
  match cs with
  | '+' :: rest => (digitsToNat? rest).map (fun n => (n : ℤ))
  | '-' :: rest => (digitsToNat? rest).map (fun n => -(n : ℤ))
  | _ => (digitsToNat? cs).map (fun n => (n : ℤ))

/-- Python `float(str)`: strip, optional sign, then nan / inf / infinity
(case-insensitive) or a decimal literal with optional exponent.  (Digit-group
underscores are not modelled.) -/
def strToFloat (s : String) : Option PyFloat :=
  let cs := (trimChars s.toList).map Char.toLower
  let signedBody : Bool × List Char :=
    match cs with
    | '+' :: rest => (false, rest)
    | '-' :: rest => (true, rest)
    | _ => (false, cs)
  let neg := signedBody.1
  let body := signedBody.2
  if body = "nan".toList then some .nan
  else if body = "inf".toList || body = "infinity".toList then
    some (if neg then .ninf else .inf)
  else
    let q? : Option ℚ :=
      match body.splitOn 'e' with
      | [m] => parseMantissa m
      | [m, e] =>
        match parseMantissa m, parseExp e with
        | some qm, some ze => some (qm * (10 : ℚ) ^ ze)
        | _, _ => none
      | _ => none
    q?.map (fun q => .fin (if neg then -q else q))

def strToIntLit (s : String) : Option ℤ :=
  let cs := trimChars s.toList
  match cs with
  | '+' :: rest => (digitsToNat? rest).map (fun n => (n : ℤ))
  | '-' :: rest => (digitsToNat? rest).map (fun n => -(n : ℤ))
  | _ => (digitsToNat? cs).map (fun n => (n : ℤ))

/-- Python `float(x)`: none models the exception on unconvertible values. -/
def pyFloatOf : PVal → Option PyFloat
  | .int n => some (.fin n)
  | .float f => some f
  | .bool b => some (.fin (if b then 1 else 0))
  | .str s => strToFloat s
  | .none => none

/-- Python `int(x)`: truncates floats toward zero, raises on nan/inf and on
non-integer strings. -/
def pyIntOf : PVal → Option ℤ
  | .int n => some n
  | .bool b => some (if b then 1 else 0)
  | .float (.fin q) => some (qtrunc q)
  | .float _ => none
  | .str s => strToIntLit s
  | .none => none

def fracDigitsStr : ℕ → ℚ → String
  | 0, _ => ""
  | fuel + 1, q =>
    if q = 0 then ""
    else
      let d : ℤ := ⌊q * 10⌋
      toString d ++ fracDigitsStr fuel (q * 10 - d)

/-- Repr of a float as Python prints it, for the finite decimal cases this
model produces; always contains a point or a letter, so it is never a member
of the truthy-string set below. -/
def floatStr : PyFloat → String
  | .nan => "nan"
  | .inf => "inf"
  | .ninf => "-inf"
  | .fin q =>
    let sign := if q < 0 then "-" else ""
    let a := |q|
    let ip := ⌊a⌋
    let fr := a - ip
    if fr = 0 then sign ++ toString ip ++ ".0"
    else sign ++ toString ip ++ "." ++ fracDigitsStr 32 fr

/-- Python `str(x)` for the value shapes of this program. -/
def pyStr : PVal → String
  | .none => "None"
  | .bool true => "True"
  | .bool false => "False"
  | .int n => toString n
  | .float f => floatStr f
  | .str s => s

/-- The numeric value a PVal contributes to Python numeric comparison:
bool counts as 0/1 because bool is an int subclass. -/
def pyNumValOf : PVal → Option PyFloat
  | .int n => some (.fin n)
  | .float f => some f
  | .bool b => some (.fin (if b then 1 else 0))
  | _ => none

/-- Python `==` on the values of this program: cross-type numeric equality
(1 == 1.0 == True), string equality, None only equal to None, nan unequal
to everything. -/
def pyEq (a b : PVal) : Bool :=
  match pyNumValOf a, pyNumValOf b with
  | some x, some y => PyFloat.eqb x y
  | _, _ =>
    match a, b with
    | .str s, .str t => s == t
    | .none, .none => true
    | _, _ => false

/-- CPython's PyObject_RichCompareBool as used by dict/list comparison: an
identity hit counts as equal before `==` is consulted.  Structural equality
of the model stands in for object identity: in the places this is used the
structurally equal value is the very same object in the Python run (min/max
and float() return one of their argument objects unchanged). -/
def pyEqOrSame (a b : PVal) : Bool := pyEq a b || a == b

/-- One schema entry (a dict in the source); absent keys are none, matching
`spec.get(...)` semantics. -/
structure SockSpec where
  type : Option String
  min : Option PVal
  max : Option PVal
  default : Option PVal
deriving DecidableEq

abbrev PyDict := List (String × PVal)
abbrev Schema := List (String × SockSpec)
abbrev ClipDict := List (String × (PVal × PVal))
abbrev ViolDict := List (String × String)

def truthyStrs : List String := ["true", "1", "yes", "on"]

def lowerAscii (s : String) : String := String.mk (s.toList.map Char.toLower)

/-- Embedding of `clip_value` (source lines 160-175).  The float branch is
float(value) with fallback float(spec.get("default", 0.0)), then
min(max(x, lo), hi) with lo = float(spec.get("min", x)) and hi likewise; the
integer branch is int(round(float(value))) with fallback
int(spec.get("default", 0)); the bool branch passes booleans through and
otherwise tests str(value).lower() against the truthy set; unrecognized types
pass through.  none models an uncaught exception (only possible when a
fallback conversion of the spec's own fields fails). -/
def clip_value (value : PVal) (spec : SockSpec) : Option PVal :=
  if spec.type = some ("float") then
    match (match pyFloatOf value with
           | some x => some x
           | none => pyFloatOf (spec.default.getD (.float (.fin 0)))) with
    | none => none
    | some x =>
      match (match spec.min with
             | some m => pyFloatOf m
             | none => some x),
            (match spec.max with
             | some m => pyFloatOf m
             | none => some x) with
      | some lo, some hi => some (.float (PyFloat.pymin (PyFloat.pymax x lo) hi))
      | _, _ => none
  else if spec.type = some ("integer") then
    match (match (pyFloatOf value).bind roundPyF with
           | some n => some n
           | none => pyIntOf (spec.default.getD (.int 0))) with
    | none => none
    | some x =>
      match (match spec.min with
             | some m => pyIntOf m
             | none => some x),
            (match spec.max with
             | some m => pyIntOf m
             | none => some x) with
      | some lo, some hi => some (.int (min (max x lo) hi))
      | _, _ => none
  else if spec.type = some ("bool") then
    match value with
    | .bool b => some (.bool b)
    | _ => some (.bool (truthyStrs.contains (lowerAscii (pyStr value))))
  else
    some value

/-- First loop of `validate_and_clip` (source lines 179-183), producing the
validated params, the clip report and the missing-key violations in schema
order. -/
def vacGo (params : PyDict) : Schema → Option (PyDict × ClipDict × ViolDict)
  | [] => some ([], [], [])
  | (k, spec) :: rest =>
    match List.lookup k params with
    | none =>
      match vacGo params rest with
      | none => none
      | some r => some ((k, spec.default.getD .none) :: r.1, r.2.1, (k, "missing->default") :: r.2.2)
    | some vin =>
      match clip_value vin spec with
      | none => none
      | some v =>
        match vacGo params rest with
        | none => none
        | some r =>
          some ((k, v) :: r.1, (if pyEq v vin then r.2.1 else (k, (vin, v)) :: r.2.1), r.2.2)

/-- Second loop of `validate_and_clip` (source lines 184-185): candidate keys
absent from the schema are reported as dropped. -/
def unknownKeyViolations (params : PyDict) (schema : Schema) : ViolDict :=
  ((params.map Prod.fst).filter (fun k => (List.lookup k schema).isNone)).map
    (fun k => (k, "unknown-key->dropped"))

/-- Embedding of `validate_and_clip` (source lines 177-186): returns
(validated params, clip report, violation report); none models an uncaught
exception propagating out of `clip_value`. -/
def validate_and_clip (params : PyDict) (schema : Schema) :
    Option (PyDict × ClipDict × ViolDict) :=
  (vacGo params schema).map (fun r => (r.1, r.2.1, r.2.2 ++ unknownKeyViolations params schema))

/-- Embedding of `defaults_from_schema` (source lines 202-203). -/
def defaults_from_schema (schema : Schema) : PyDict :=
  schema.map (fun ks => (ks.1, ks.2.default.getD .none))

/-- isinstance(v, (int, float)) — true for Python bools as well, because bool
is a subclass of int. -/
def isNumPy : PVal → Bool
  | .int _ => true
  | .float _ => true
  | .bool _ => true
  | _ => false

/-- Embedding of `confidence_score` (source lines 188-200).  The outer Option
models an uncaught ZeroDivisionError (never reachable, since every divisor is
at least 1); the inner Option in the per-key step distinguishes "appended a
diff" from "appended nothing". -/
def confidence_score (validated defaults : PyDict) (clipped : ClipDict) :
    Option PyFloat :=
  let eps : PyFloat := .fin (1 / 1000000000)
  let keys := (validated.map Prod.fst).filter (fun k => (List.lookup k defaults).isSome)
  if keys.isEmpty then some (.fin 0)
  else
    match keys.mapM (fun k =>
      let v := (List.lookup k validated).getD .none
      let d := (List.lookup k defaults).getD .none
      if isNumPy v && isNumPy d then
        match pyNumValOf v, pyNumValOf d with
        | some xv, some xd =>
          let rng := PyFloat.add (PyFloat.abs xd) (.fin 1)
          (PyFloat.div (PyFloat.abs (PyFloat.sub xv xd)) (PyFloat.add rng eps)).map
            (fun t => some (PyFloat.pymin (.fin 1) t))
        | _, _ => some Option.none
      else
        match v, d with
        | .bool bv, .bool bd => some (some (if bv != bd then PyFloat.fin (3 / 10) else .fin 0))
        | _, _ => some Option.none) with
    | none => none
    | some opts =>
      let diffs := opts.filterMap id
      match PyFloat.div (diffs.foldl PyFloat.add (.fin 0)) (.fin ((max 1 diffs.length : ℕ) : ℚ)) with
      | none => none
      | some base =>
        match PyFloat.div (.fin (clipped.length : ℚ)) (.fin ((max 1 validated.length : ℕ) : ℚ)) with
        | none => none
        | some cp0 =>
          let clipPenalty := PyFloat.pymin (.fin (1 / 2)) cp0
          some (PyFloat.pymax (.fin 0)
            (PyFloat.pymin (.fin 1) (PyFloat.mul base (PyFloat.sub (.fin 1) clipPenalty))))

/-- Key list of a dict, for stating key-set properties. -/
def dictKeys (d : PyDict) : List String := d.map Prod.fst

/-- Python dict equality as used by the idempotence claim: same keys, and the
values compared with PyObject_RichCompareBool (identity shortcut, then `==`).
Both dicts compared here list the schema keys in the same order, so a
positional comparison is used. -/
def pyDictMatch (a b : PyDict) : Bool :=
  a.length == b.length &&
  (a.zip b).all (fun p => p.1.1 == p.2.1 && pyEqOrSame p.1.2 p.2.2)

/-- Data-model well-formedness of one SockSpec (spec.md section 3): numeric
types carry numeric min/max/default with min ≤ default ≤ max, bool carries a
boolean default; entries of unrecognized type pass through unconstrained. -/
def numValQ : PVal → Option ℚ
  | .int n => some n
  | .float (.fin q) => some q
  | _ => none

def wfSpec (spec : SockSpec) : Bool :=
  if spec.type = some ("float") then
    match spec.min, spec.max, spec.default with
    | some m, some M, some d =>
      match numValQ m, numValQ M, numValQ d with
      | some qm, some qM, some qd => decide (qm ≤ qd) && decide (qd ≤ qM)
      | _, _, _ => false
    | _, _, _ => false
  else if spec.type = some ("integer") then
    match spec.min, spec.max, spec.default with
    | some (.int nm), some (.int nM), some (.int nd) => decide (nm ≤ nd) && decide (nd ≤ nM)
    | _, _, _ => false
  else if spec.type = some ("bool") then
    match spec.default with
    | some (.bool _) => true
    | _ => false
  else true

/-- A Schema per the data model: well-formed entries with distinct keys. -/
def wfSchema (schema : Schema) : Bool :=
  schema.all (fun ks => wfSpec ks.2) && decide ((schema.map Prod.fst).Nodup)

-- ---------------------------------------------------------------------------
-- Grammar compiler (_gbnf_for_schema, source lines 216-256)
-- ---------------------------------------------------------------------------

def hexDigitChar (n : ℕ) : Char :=
  if n < 10 then Char.ofNat (48 + n) else Char.ofNat (87 + n)

def uEscape (n : ℕ) : String :=
  "\\u" ++ String.mk [hexDigitChar (n / 4096 % 16), hexDigitChar (n / 256 % 16),
                      hexDigitChar (n / 16 % 16), hexDigitChar (n % 16)]

def jsonEscapeChar (c : Char) : String :=
  if c = Char.ofNat 34 then "\\\""
  else if c = Char.ofNat 92 then "\\\\"
  else if c = Char.ofNat 10 then "\\n"
  else if c = Char.ofNat 13 then "\\r"
  else if c = Char.ofNat 9 then "\\t"
  else if c.toNat = 8 then "\\b"
  else if c.toNat = 12 then "\\f"
  else if c.toNat < 32 then uEscape c.toNat
  else if c.toNat < 128 then String.mk [c]
  else if c.toNat < 65536 then uEscape c.toNat
  else
    let v := c.toNat - 65536
    uEscape (55296 + v / 1024) ++ uEscape (56320 + v % 1024)

/-- Python `json.dumps` on a str (default ensure_ascii=True). -/
def jsonDumpsStr (s : String) : String :=
  "\"" ++ String.join (s.toList.map jsonEscapeChar) ++ "\""

/-- Python `list.sort()` on strings: ascending code-point lexicographic. -/
def strInsertLe (x : String) : List String → List String
  | [] => [x]
  | y :: ys => if x ≤ y then x :: y :: ys else y :: strInsertLe x ys

def strSort : List String → List String
  | [] => []
  | x :: xs => strInsertLe x (strSort xs)

def newline : String := String.mk [Char.ofNat 10]

def joinNL (ss : List String) : String := String.intercalate newline ss

def joinBar (ss : List String) : String :=
  String.intercalate (" | ") ss

/-- The boolean_def block of the grammar (verbatim from the source; the
source's raw strings contain literal backslash sequences). -/
def gbnfBooleanDef : String := joinNL [
  "boolean ::= \"true\" | \"false\"",
  "number  ::= integer frac? exp?",
  "integer ::= \"-\"? (\"0\" | [1-9] [0-9]*)",
  "frac    ::= \".\" [0-9]+",
  "exp     ::= (\"e\" | \"E\") (\"+\" | \"-\")? [0-9]+",
  "ws ::= ([ \\t\\n\\r] | comment)*",
  "comment ::= \"/*\" ([^*] | \"*\"+ [^*/])* \"*\"+ \"/\"",
  ""]

/-- Embedding of `_gbnf_for_schema` (source lines 216-256): numeric and bool
keys are collected in schema order, sorted, and one of three grammar texts is
emitted; note the third branch fires whenever there are no numeric keys, even
if bool keys exist. -/
def gbnf_for_schema (schema : Schema) : String :=
  let number_keys := strSort ((schema.filter
    (fun ks => ks.2.type = some ("float") || ks.2.type = some ("integer"))).map Prod.fst)
  let bool_keys := strSort ((schema.filter (fun ks => ks.2.type = some ("bool"))).map Prod.fst)
  let alts := fun (xs : List String) => joinBar (xs.map jsonDumpsStr)
  if !number_keys.isEmpty && !bool_keys.isEmpty then
    joinNL [
      "root ::= ws \"\x7b\" ws members? ws \"\x7d\" ws",
      "members ::= pair (ws \",\" ws pair)*",
      "pair ::= number_pair | bool_pair",
      "number_pair ::= number_key ws \":\" ws number",
      "number_key ::= " ++ alts number_keys,
      "bool_pair ::= bool_key ws \":\" ws boolean",
      "bool_key ::= " ++ alts bool_keys,
      "",
      gbnfBooleanDef]
  else if !number_keys.isEmpty then
    joinNL [
      "root ::= ws \"\x7b\" ws members? ws \"\x7d\" ws",
      "members ::= number_pair (ws \",\" ws number_pair)*",
      "number_pair ::= number_key ws \":\" ws number",
      "number_key ::= " ++ alts number_keys,
      "",
      gbnfBooleanDef]
  else
    joinNL ["root ::= ws \"\x7b\" ws \"\x7d\" ws", "", gbnfBooleanDef]

-- ---------------------------------------------------------------------------
-- JSON-span extraction (re.search of a greedy brace pattern with DOTALL,
-- source lines 666-667 and 920-921)
-- ---------------------------------------------------------------------------

def lbrace : Char := Char.ofNat 123

def rbrace : Char := Char.ofNat 125

/-- Longest prefix of the list that ends at its last closing brace; none when
the list has no closing brace.  This is the greedy continuation of a match
that has already consumed an opening brace. -/
def upToLastClose : List Char → Option (List Char)
  | [] => none
  | c :: rest =>
    match upToLastClose rest with
    | some t => some (c :: t)
    | none => if c = rbrace then some [c] else none

/-- re.search of the pattern "one opening brace, then a greedy DOTALL any-run,
then a closing brace": try each start position left to right; a match starts
at an opening brace and runs to the last closing brace after it. -/
def reGreedySearch : List Char → Option (List Char)
  | [] => none
  | c :: rest =>
    if c = lbrace then
      match upToLastClose rest with
      | some t => some (c :: t)
      | none => reGreedySearch rest
    else reGreedySearch rest

/-- json_text = m.group(0) if m else raw. -/
def extractSpan (s : List Char) : List Char :=
  match reGreedySearch s with
  | some m => m
  | none => s

def extractSpanStr (s : String) : String := String.mk (extractSpan s.toList)

/-- Independent characterisation used by the amended claim: cut the text down
to the segment from its first opening brace through its last closing brace,
falling back to the whole text when that segment is empty. -/
def firstToLastSpan (s : List Char) : List Char :=
  let f := s.dropWhile (fun c => c ≠ lbrace)
  let r := (f.reverse.dropWhile (fun c => c ≠ rbrace)).reverse
  if r.isEmpty then s else r

/-- Modelled from the spec: the "first balanced brace span" of a text --
from the first opening brace to the matching closing brace, tracking
nesting depth; none when the braces never rebalance. -/
def balancedScan : List Char → ℕ → List Char → Option (List Char)
  | [], _, _ => none
  | c :: rest, depth, acc =>
    if c = lbrace then balancedScan rest (depth + 1) (c :: acc)
    else if c = rbrace then
      if depth = 1 then some ((c :: acc).reverse)
      else balancedScan rest (depth - 1) (c :: acc)
    else balancedScan rest depth (c :: acc)

def firstBalancedSpan (s : List Char) : Option (List Char) :=
  match s.dropWhile (fun c => c ≠ lbrace) with
  | [] => none
  | c :: rest => balancedScan rest 1 [c]

-- ---------------------------------------------------------------------------
-- Inference wrappers (run_llm_soft, source lines 610-682; run_llm_hard,
-- source lines 831-941).  Wall-clock fields (elapsed) are not modelled; the
-- cancellation event is modelled as a constant signal (it is only ever set,
-- never cleared); the llama engine, json.loads and the worker child process
-- are external collaborators, abstracted as oracle inputs.
-- ---------------------------------------------------------------------------

structure InferenceResult where
  ok : Bool
  params : Option PyDict
  confidence : PyFloat
  raw : Option String
  clipped : Option ClipDict
  violations : Option ViolDict
  model : String
deriving DecidableEq

/-- Observable actions of the wrappers, recorded as a trace. -/
inductive Event where
  | loadModel
  | grammarBuilt (ok : Bool)
  | engineCall (attempt : ℕ)
  | writeWorkerScript
  | writeArgsFile
  | spawnWorker
  | terminateWorker
  | readWorkerOutput
  | removeArgsFile
deriving DecidableEq

/-- Outcome of one llm.create_chat_completion call: an exception, or the
response content (None content is already collapsed to "" by the source's
`or ""`). -/
inductive EngineResp where
  | raise (msg : String)
  | ok (content : String)

/-- os.path.basename for the POSIX paths used in the model field. -/
def basename (p : String) : String :=
  String.mk ((splitOnChar '/' p.toList).getLastD p.toList)

def errResult (tag : String) (modelName : String) : InferenceResult :=
  ⟨false, none, .fin 0, none, none, some [("error", tag)], modelName⟩

def canceledResult (modelName : String) : InferenceResult :=
  errResult ("canceled") modelName

structure SoftEnv where
  modelExists : Bool
  modelPath : String
  llamaOk : Bool
  loaded : Bool
  loadOk : Bool
  grammarOk : Bool
  cancel : Bool
  engine : ℕ → EngineResp
  jloads : String → Option PyDict

/-- Attempt loop of run_llm_soft (source lines 652-679): cancellation is
checked before each call, after each call and in the exception handler; a
failed attempt records the error and moves on; a successful parse runs the
extraction/validation/confidence pipeline. -/
def softAttemptLoop (env : SoftEnv) (schema : Schema) :
    List ℕ → Option String → List Event → Option InferenceResult × List Event
  | [], lastErr, evs =>
    (some (errResult (Option.getD lastErr "unknown") (basename env.modelPath)), evs)
  | i :: rest, _lastErr, evs =>
    if env.cancel then (some (canceledResult (basename env.modelPath)), evs)
    else
      match env.engine i with
      | .raise msg =>
        if env.cancel then (some (canceledResult (basename env.modelPath)), evs ++ [Event.engineCall i])
        else softAttemptLoop env schema rest (some msg) (evs ++ [Event.engineCall i])
      | .ok content =>
        let evs2 := evs ++ [Event.engineCall i]
        if env.cancel then (some (canceledResult (basename env.modelPath)), evs2)
        else
          let raw := pyStrip content
          if raw = "" then
            softAttemptLoop env schema rest (some ("RuntimeError: empty_response")) evs2
          else
            let jsonText := extractSpanStr raw
            match env.jloads jsonText with
            | none => softAttemptLoop env schema rest (some ("JSONDecodeError")) evs2
            | some parsed =>
              match validate_and_clip parsed schema with
              | none => softAttemptLoop env schema rest (some ("ValueError")) evs2
              | some r =>
                match confidence_score r.1 (defaults_from_schema schema) r.2.1 with
                | none => softAttemptLoop env schema rest (some ("ZeroDivisionError")) evs2
                | some conf =>
                  (some ⟨true, some r.1, conf, some raw,
                    (if r.2.1.isEmpty then none else some r.2.1),
                    (if r.2.2.isEmpty then none else some r.2.2),
                    basename env.modelPath⟩, evs2)

/-- Embedding of `run_llm_soft`: fail-fast checks for a missing model file, an
empty schema and a failed llama import, then (under the inference lock) model
load, grammar construction and the three-attempt loop.  The outer none models
the one uncaught exception path: a failing model load. -/
def run_llm_soft (env : SoftEnv) (schema : Schema) : Option InferenceResult × List Event :=
  if !env.modelExists then (some (errResult ("model_missing") ("(unset)")), [])
  else if schema.isEmpty then
    (some (errResult ("schema_missing") (basename env.modelPath)), [])
  else if !env.llamaOk then
    (some (errResult ("llama import failed") (basename env.modelPath)), [])
  else if !env.loaded && !env.loadOk then (none, [Event.loadModel])
  else
    let evs := (if !env.loaded then [Event.loadModel] else []) ++ [Event.grammarBuilt env.grammarOk]
    softAttemptLoop env schema [0, 1, 2] none evs

/-- The single JSON status line of the worker child, already decoded: the
child printed nothing (crash), printed non-JSON, or printed a payload. -/
structure HardPayload where
  ok : Bool
  raw : Option String
  violations : Option ViolDict

inductive WorkerResp where
  | noOutput (stderr : String)
  | badLine
  | line (p : HardPayload)

structure HardEnv where
  modelExists : Bool
  modelPath : String
  cancel : Bool
  worker : WorkerResp
  jloads : String → Option PyDict

def strTakeRight (s : String) (n : ℕ) : String :=
  String.mk ((s.toList.reverse.take n).reverse)

def subprocErrorResult (modelName : String) : InferenceResult :=
  errResult ("subproc_error") modelName

/-- Embedding of `run_llm_hard`: fail-fast checks, then worker script and
argument file are written and the subprocess is spawned; the polling loop
checks the cancel signal first and, when it is set, terminates the worker and
returns; otherwise the child's single JSON line is consumed and fed through
the same extraction/validation/confidence pipeline.  Every exception inside
the try block is caught (subproc_error); the finally block always removes the
argument file. -/
def run_llm_hard (env : HardEnv) (schema : Schema) : InferenceResult × List Event :=
  if !env.modelExists then (errResult ("model_missing") ("(unset)"), [])
  else if schema.isEmpty then
    (errResult ("schema_missing") (basename env.modelPath), [])
  else
    let mdl := basename env.modelPath
    let evs0 := [Event.writeWorkerScript, Event.writeArgsFile, Event.spawnWorker]
    if env.cancel then
      (canceledResult mdl, evs0 ++ [Event.terminateWorker, Event.removeArgsFile])
    else
      let evs := evs0 ++ [Event.readWorkerOutput]
      let res : InferenceResult :=
        match env.worker with
        | .noOutput err =>
          ⟨false, none, .fin 0, none, none,
            some [("error", "subproc_no_output"), ("stderr", strTakeRight err 512)], mdl⟩
        | .badLine => subprocErrorResult mdl
        | .line p =>
          if p.ok then
            let raw := pyStrip (p.raw.getD "")
            if raw = "" then errResult ("empty_response") mdl
            else
              let jsonText := extractSpanStr raw
              match env.jloads jsonText with
              | none => subprocErrorResult mdl
              | some parsed =>
                match validate_and_clip parsed schema with
                | none => subprocErrorResult mdl
                | some r =>
                  match confidence_score r.1 (defaults_from_schema schema) r.2.1 with
                  | none => subprocErrorResult mdl
                  | some conf =>
                    ⟨true, some r.1, conf, some raw,
                      (if r.2.1.isEmpty then none else some r.2.1),
                      (if r.2.2.isEmpty then none else some r.2.2), mdl⟩
          else
            ⟨false, none, .fin 0, none, none,
              some (p.violations.getD [("error", "subproc_failed")]), mdl⟩
      (res, evs ++ [Event.removeArgsFile])

/-- The value validate_and_clip stores for schema key k: the verbatim default
when the candidate lacks the key, otherwise the clipped candidate value. -/
def oneVal (params : PyDict) (k : String) (spec : SockSpec) : Option PVal :=
  match List.lookup k params with
  | none => some (spec.default.getD .none)
  | some vin => clip_value vin spec

-- ---------------------------------------------------------------------------
-- Helper lemmas
-- ---------------------------------------------------------------------------

theorem lookup_append_left {α β : Type} [BEq α] {k : α} {l1 l2 : List (α × β)} {v : β}
    (h : List.lookup k l1 = some v) : List.lookup k (l1 ++ l2) = some v := by
  induction l1 with
  | nil => simp [List.lookup] at h
  | cons p rest ih =>
    rcases p with ⟨a, b⟩
    cases hk : (k == a) with
    | true => simp_all [List.lookup]
    | false => simp_all [List.lookup]

theorem roundHalfEven_int (n : ℤ) : roundHalfEven ((n : ℤ) : ℚ) = n := by
  unfold roundHalfEven
  rw [Int.floor_intCast]
  norm_num

theorem pyFloatOf_of_numValQ {v : PVal} {q : ℚ} (h : numValQ v = some q) :
    pyFloatOf v = some (.fin q) := by
  cases v with
  | float f => cases f <;> simp_all [numValQ, pyFloatOf]
  | _ => simp_all [numValQ, pyFloatOf]

theorem clamp_fin_inrange {c a b : ℚ} (h1 : a ≤ c) (h2 : c ≤ b) :
    PyFloat.pymin (PyFloat.pymax (.fin c) (.fin a)) (.fin b) = .fin c := by
  simp only [PyFloat.pymax, PyFloat.pymin, PyFloat.lt]
  have hca : ¬ c < a := not_lt.mpr h1
  have hbc : ¬ b < c := not_lt.mpr h2
  simp [hca, hbc]

theorem clamp_fin_idem (x : PyFloat) (a b : ℚ) (hab : a ≤ b) :
    PyFloat.pymin (PyFloat.pymax (PyFloat.pymin (PyFloat.pymax x (.fin a)) (.fin b)) (.fin a)) (.fin b)
      = PyFloat.pymin (PyFloat.pymax x (.fin a)) (.fin b) := by
  cases x with
  | fin q =>
    simp only [PyFloat.pymax, PyFloat.pymin, PyFloat.lt]
    by_cases h1 : q < a
    · have : ¬ a < a := lt_irrefl a
      simp [h1, this, not_lt.mpr hab]
    · by_cases h2 : b < q
      · have : ¬ b < a := not_lt.mpr hab
        simp [h1, h2, this, lt_irrefl]
      · simp [h1, h2]
  | inf =>
    simp only [PyFloat.pymax, PyFloat.pymin, PyFloat.lt]
    simp [not_lt.mpr hab, lt_irrefl]
  | ninf =>
    simp only [PyFloat.pymax, PyFloat.pymin, PyFloat.lt]
    simp [not_lt.mpr hab, lt_irrefl]
  | nan =>
    simp only [PyFloat.pymax, PyFloat.pymin, PyFloat.lt]
    simp


theorem wfSpec_float_facts {spec : SockSpec} (hf : spec.type = some ("float"))
    (h : wfSpec spec = true) :
    ∃ m M d qm qM qd, spec.min = some m ∧ spec.max = some M ∧ spec.default = some d ∧
      numValQ m = some qm ∧ numValQ M = some qM ∧ numValQ d = some qd ∧ qm ≤ qd ∧ qd ≤ qM := by
  unfold wfSpec at h
  rw [if_pos hf] at h
  split at h
  next m M d hmn hmx hdf =>
    split at h
    next qm qM qd hq1 hq2 hq3 =>
      simp only [Bool.and_eq_true, decide_eq_true_eq] at h
      exact ⟨m, M, d, qm, qM, qd, hmn, hmx, hdf, hq1, hq2, hq3, h.1, h.2⟩
    next => simp at h
  next => simp at h

theorem wfSpec_integer_facts {spec : SockSpec} (hf1 : spec.type ≠ some ("float"))
    (hf2 : spec.type = some ("integer")) (h : wfSpec spec = true) :
    ∃ nm nM nd, spec.min = some (.int nm) ∧ spec.max = some (.int nM) ∧
      spec.default = some (.int nd) ∧ nm ≤ nd ∧ nd ≤ nM := by
  unfold wfSpec at h
  rw [if_neg hf1, if_pos hf2] at h
  split at h
  next nm nM nd hmn hmx hdf =>
    simp only [Bool.and_eq_true, decide_eq_true_eq] at h
    exact ⟨nm, nM, nd, hmn, hmx, hdf, h.1, h.2⟩
  next => simp at h

theorem wfSpec_bool_facts {spec : SockSpec} (hf1 : spec.type ≠ some ("float"))
    (hf2 : spec.type ≠ some ("integer")) (hf3 : spec.type = some ("bool"))
    (h : wfSpec spec = true) : ∃ b, spec.default = some (.bool b) := by
  unfold wfSpec at h
  rw [if_neg hf1, if_neg hf2, if_pos hf3] at h
  split at h
  next b hdf => exact ⟨b, hdf⟩
  next => simp at h

theorem clip_float_eq {spec : SockSpec} {m M d : PVal} {qm qM qd : ℚ}
    (hf : spec.type = some ("float"))
    (hmn : spec.min = some m) (hmx : spec.max = some M) (hdf : spec.default = some d)
    (h1 : numValQ m = some qm) (h2 : numValQ M = some qM) (h3 : numValQ d = some qd)
    (v : PVal) :
    clip_value v spec =
      some (.float (PyFloat.pymin (PyFloat.pymax ((pyFloatOf v).getD (.fin qd)) (.fin qm)) (.fin qM))) := by
  have hm := pyFloatOf_of_numValQ h1
  have hM := pyFloatOf_of_numValQ h2
  have hd := pyFloatOf_of_numValQ h3
  unfold clip_value
  rw [if_pos hf, hmn, hmx, hdf]
  cases hv : pyFloatOf v <;> simp [hv, hm, hM, hd]

theorem clip_integer_eq {spec : SockSpec} {nm nM nd : ℤ}
    (hf1 : spec.type ≠ some ("float")) (hf2 : spec.type = some ("integer"))
    (hmn : spec.min = some (.int nm)) (hmx : spec.max = some (.int nM))
    (hdf : spec.default = some (.int nd)) (v : PVal) :
    clip_value v spec =
      some (.int (min (max (((pyFloatOf v).bind roundPyF).getD nd) nm) nM)) := by
  unfold clip_value
  rw [if_neg hf1, if_pos hf2, hmn, hmx, hdf]
  cases hv : (pyFloatOf v).bind roundPyF <;> simp [hv, pyIntOf]

theorem clip_bool_eq {spec : SockSpec}
    (hf1 : spec.type ≠ some ("float")) (hf2 : spec.type ≠ some ("integer"))
    (hf3 : spec.type = some ("bool")) (v : PVal) :
    clip_value v spec = some (match v with
      | .bool b => .bool b
      | _ => .bool (truthyStrs.contains (lowerAscii (pyStr v)))) := by
  unfold clip_value
  rw [if_neg hf1, if_neg hf2, if_pos hf3]
  cases v <;> rfl

theorem clip_other_eq {spec : SockSpec}
    (hf1 : spec.type ≠ some ("float")) (hf2 : spec.type ≠ some ("integer"))
    (hf3 : spec.type ≠ some ("bool")) (v : PVal) :
    clip_value v spec = some v := by
  unfold clip_value
  rw [if_neg hf1, if_neg hf2, if_neg hf3]

theorem clip_value_wf_total (spec : SockSpec) (h : wfSpec spec = true) (v : PVal) :
    (clip_value v spec).isSome := by
  by_cases hf1 : spec.type = some ("float")
  · obtain ⟨m, M, d, qm, qM, qd, hmn, hmx, hdf, h1, h2, h3, _, _⟩ := wfSpec_float_facts hf1 h
    rw [clip_float_eq hf1 hmn hmx hdf h1 h2 h3 v]; rfl
  by_cases hf2 : spec.type = some ("integer")
  · obtain ⟨nm, nM, nd, hmn, hmx, hdf, _, _⟩ := wfSpec_integer_facts hf1 hf2 h
    rw [clip_integer_eq hf1 hf2 hmn hmx hdf v]; rfl
  by_cases hf3 : spec.type = some ("bool")
  · rw [clip_bool_eq hf1 hf2 hf3 v]; rfl
  · rw [clip_other_eq hf1 hf2 hf3 v]; rfl

theorem pyEqOrSame_refl (v : PVal) : pyEqOrSame v v = true := by
  simp [pyEqOrSame]

theorem clip_fixed {spec : SockSpec} (h : wfSpec spec = true) {params : PyDict}
    {k : String} {v : PVal} (hv : oneVal params k spec = some v) :
    ∃ w, clip_value v spec = some w ∧ pyEqOrSame w v = true := by
  by_cases hf1 : spec.type = some ("float")
  · obtain ⟨m, M, d, qm, qM, qd, hmn, hmx, hdf, h1, h2, h3, hle1, hle2⟩ := wfSpec_float_facts hf1 h
    cases hlk : List.lookup k params with
    | none =>
      simp only [oneVal, hlk, hdf, Option.getD_some, Option.some_inj] at hv
      subst hv
      refine ⟨.float (.fin qd), ?_, ?_⟩
      · rw [clip_float_eq hf1 hmn hmx hdf h1 h2 h3 d,
          pyFloatOf_of_numValQ h3, Option.getD_some, clamp_fin_inrange hle1 hle2]
      · cases d with
        | int n =>
          simp only [numValQ, Option.some_inj] at h3
          simp [pyEqOrSame, pyEq, pyNumValOf, PyFloat.eqb, h3]
        | float f =>
          cases f with
          | fin q =>
            simp only [numValQ, Option.some_inj] at h3
            subst h3
            exact pyEqOrSame_refl _
          | inf => simp [numValQ] at h3
          | ninf => simp [numValQ] at h3
          | nan => simp [numValQ] at h3
        | none => simp [numValQ] at h3
        | bool b => simp [numValQ] at h3
        | str s => simp [numValQ] at h3
    | some vin =>
      simp only [oneVal, hlk] at hv
      rw [clip_float_eq hf1 hmn hmx hdf h1 h2 h3 vin] at hv
      obtain rfl : PVal.float (PyFloat.pymin (PyFloat.pymax ((pyFloatOf vin).getD (.fin qd)) (.fin qm)) (.fin qM)) = v :=
        Option.some_inj.mp hv
      rw [clip_float_eq hf1 hmn hmx hdf h1 h2 h3]
      refine ⟨_, rfl, ?_⟩
      simp only [pyFloatOf, Option.getD_some]
      rw [clamp_fin_idem _ qm qM (le_trans hle1 hle2)]
      exact pyEqOrSame_refl _
  by_cases hf2 : spec.type = some ("integer")
  · obtain ⟨nm, nM, nd, hmn, hmx, hdf, hle1, hle2⟩ := wfSpec_integer_facts hf1 hf2 h
    cases hlk : List.lookup k params with
    | none =>
      simp only [oneVal, hlk, hdf, Option.getD_some, Option.some_inj] at hv
      subst hv
      refine ⟨.int nd, ?_, pyEqOrSame_refl _⟩
      rw [clip_integer_eq hf1 hf2 hmn hmx hdf]
      simp only [pyFloatOf, Option.some_bind, roundPyF, roundHalfEven_int, Option.getD_some]
      have heq : min (max nd nm) nM = nd := by omega
      rw [heq]
    | some vin =>
      simp only [oneVal, hlk] at hv
      rw [clip_integer_eq hf1 hf2 hmn hmx hdf vin] at hv
      generalize hx : ((pyFloatOf vin).bind roundPyF).getD nd = x at hv
      obtain rfl : PVal.int (min (max x nm) nM) = v := Option.some_inj.mp hv
      rw [clip_integer_eq hf1 hf2 hmn hmx hdf]
      refine ⟨_, rfl, ?_⟩
      simp only [pyFloatOf, Option.some_bind, roundPyF, roundHalfEven_int, Option.getD_some]
      have heq : min (max (min (max x nm) nM) nm) nM = min (max x nm) nM := by omega
      rw [heq]
      exact pyEqOrSame_refl _
  by_cases hf3 : spec.type = some ("bool")
  · obtain ⟨b0, hdf⟩ := wfSpec_bool_facts hf1 hf2 hf3 h
    cases hlk : List.lookup k params with
    | none =>
      simp only [oneVal, hlk, hdf, Option.getD_some, Option.some_inj] at hv
      subst hv
      exact ⟨.bool b0, clip_bool_eq hf1 hf2 hf3 _, pyEqOrSame_refl _⟩
    | some vin =>
      simp only [oneVal, hlk] at hv
      rw [clip_bool_eq hf1 hf2 hf3 vin] at hv
      have hb : ∃ b, v = PVal.bool b := by
        cases vin <;> exact ⟨_, (Option.some_inj.mp hv).symm⟩
      obtain ⟨b, rfl⟩ := hb
      exact ⟨.bool b, clip_bool_eq hf1 hf2 hf3 _, pyEqOrSame_refl _⟩
  · cases hlk : List.lookup k params with
    | none =>
      simp only [oneVal, hlk, Option.some_inj] at hv
      subst hv
      exact ⟨_, clip_other_eq hf1 hf2 hf3 _, pyEqOrSame_refl _⟩
    | some vin =>
      simp only [oneVal, hlk] at hv
      rw [clip_other_eq hf1 hf2 hf3 vin] at hv
      obtain rfl := Option.some_inj.mp hv
      exact ⟨_, clip_other_eq hf1 hf2 hf3 _, pyEqOrSame_refl _⟩

theorem vacGo_keys {params : PyDict} {schema : Schema} {r : PyDict × ClipDict × ViolDict}
    (hr : vacGo params schema = some r) : r.1.map Prod.fst = schema.map Prod.fst := by
  induction schema generalizing r with
  | nil => simp [vacGo] at hr; subst hr; rfl
  | cons ks rest ih =>
    rcases ks with ⟨k, spec⟩
    unfold vacGo at hr
    cases hlk : List.lookup k params with
    | none =>
      simp only [hlk] at hr
      cases hrec : vacGo params rest with
      | none => simp only [hrec] at hr; exact Option.noConfusion hr
      | some r0 =>
        simp only [hrec, Option.some_inj] at hr
        subst hr
        simp [ih hrec]
    | some vin =>
      simp only [hlk] at hr
      cases hcv : clip_value vin spec with
      | none => simp only [hcv] at hr; exact Option.noConfusion hr
      | some v =>
        simp only [hcv] at hr
        cases hrec : vacGo params rest with
        | none => simp only [hrec] at hr; exact Option.noConfusion hr
        | some r0 =>
          simp only [hrec, Option.some_inj] at hr
          subst hr
          simp [ih hrec]

theorem vacGo_total {params : PyDict} {schema : Schema}
    (h : ∀ ks ∈ schema, (oneVal params ks.1 ks.2).isSome) :
    ∃ r, vacGo params schema = some r := by
  induction schema with
  | nil => exact ⟨_, rfl⟩
  | cons ks rest ih =>
    rcases ks with ⟨k, spec⟩
    obtain ⟨r0, hrec⟩ := ih (fun b hb => h b (List.mem_cons_of_mem _ hb))
    have hhead := h (k, spec) (List.mem_cons_self _ _)
    unfold vacGo
    cases hlk : List.lookup k params with
    | none =>
      simp only [hlk, hrec]
      exact ⟨_, rfl⟩
    | some vin =>
      have hsome : (clip_value vin spec).isSome := by
        simpa [oneVal, hlk] using hhead
      cases hcv : clip_value vin spec with
      | none => rw [hcv] at hsome; simp at hsome
      | some v =>
        simp only [hlk, hcv, hrec]
        exact ⟨_, rfl⟩

theorem vacGo_shape {params : PyDict} {schema : Schema} {r : PyDict × ClipDict × ViolDict}
    (hr : vacGo params schema = some r) :
    List.Forall₂ (fun ks kv => ks.1 = kv.1 ∧ oneVal params ks.1 ks.2 = some kv.2) schema r.1 := by
  induction schema generalizing r with
  | nil => simp [vacGo] at hr; subst hr; exact List.Forall₂.nil
  | cons ks rest ih =>
    rcases ks with ⟨k, spec⟩
    unfold vacGo at hr
    cases hlk : List.lookup k params with
    | none =>
      simp only [hlk] at hr
      cases hrec : vacGo params rest with
      | none => simp only [hrec] at hr; exact Option.noConfusion hr
      | some r0 =>
        simp only [hrec, Option.some_inj] at hr
        subst hr
        exact List.Forall₂.cons ⟨rfl, by simp [oneVal, hlk]⟩ (ih hrec)
    | some vin =>
      simp only [hlk] at hr
      cases hcv : clip_value vin spec with
      | none => simp only [hcv] at hr; exact Option.noConfusion hr
      | some v =>
        simp only [hcv] at hr
        cases hrec : vacGo params rest with
        | none => simp only [hrec] at hr; exact Option.noConfusion hr
        | some r0 =>
          simp only [hrec, Option.some_inj] at hr
          subst hr
          exact List.Forall₂.cons ⟨rfl, by simp [oneVal, hlk, hcv]⟩ (ih hrec)

theorem shape_lookup {params : PyDict} {schema : Schema} {out : PyDict}
    (hs : List.Forall₂ (fun ks kv => ks.1 = kv.1 ∧ oneVal params ks.1 ks.2 = some kv.2) schema out)
    (hnd : (schema.map Prod.fst).Nodup) {k : String} {spec : SockSpec}
    (hmem : (k, spec) ∈ schema) :
    ∃ v, oneVal params k spec = some v ∧ List.lookup k out = some v := by
  induction hs with
  | nil => simp at hmem
  | @cons ks kv rest out' hhead htail ih =>
    rcases List.mem_cons.mp hmem with heq | hmem'
    · obtain rfl : ks = (k, spec) := heq.symm
      refine ⟨kv.2, hhead.2, ?_⟩
      rcases kv with ⟨k2, v2⟩
      obtain rfl : k = k2 := hhead.1
      simp [List.lookup]
    · have hne : k ≠ ks.1 := by
        simp only [List.map_cons, List.nodup_cons] at hnd
        intro hkk
        exact hnd.1 (hkk ▸ (List.mem_map.mpr ⟨(k, spec), hmem', rfl⟩))
      obtain ⟨v, hv1, hv2⟩ := ih (by
        simp only [List.map_cons, List.nodup_cons] at hnd
        exact hnd.2) hmem'
      refine ⟨v, hv1, ?_⟩
      rcases kv with ⟨k2, v2⟩
      have hne2 : (k == k2) = false := by
        refine beq_eq_false_iff_ne.mpr ?_
        have := hhead.1
        simp only at this
        rw [← this]
        exact hne
      simp [List.lookup, hne2, hv2]

theorem oneVal_wf_total {spec : SockSpec} (h : wfSpec spec = true) (params : PyDict)
    (k : String) : (oneVal params k spec).isSome := by
  unfold oneVal
  cases hlk : List.lookup k params with
  | none => rfl
  | some vin => exact clip_value_wf_total spec h vin

theorem wfSchema_parts {schema : Schema} (h : wfSchema schema = true) :
    (∀ ks ∈ schema, wfSpec ks.2 = true) ∧ (schema.map Prod.fst).Nodup := by
  simp only [wfSchema, Bool.and_eq_true, List.all_eq_true, decide_eq_true_eq] at h
  exact h

theorem vacGo_clip_keys {params : PyDict} {schema : Schema} {r : PyDict × ClipDict × ViolDict}
    (hr : vacGo params schema = some r) {k : String} (hk : k ∉ schema.map Prod.fst) :
    List.lookup k r.2.1 = none := by
  induction schema generalizing r with
  | nil => simp [vacGo] at hr; subst hr; rfl
  | cons ks rest ih =>
    rcases ks with ⟨k0, spec0⟩
    simp only [List.map_cons, List.mem_cons, not_or] at hk
    unfold vacGo at hr
    cases hlk : List.lookup k0 params with
    | none =>
      simp only [hlk] at hr
      cases hrec : vacGo params rest with
      | none => simp only [hrec] at hr; exact Option.noConfusion hr
      | some r0 =>
        simp only [hrec, Option.some_inj] at hr
        subst hr
        show List.lookup k r0.2.1 = none
        exact ih hrec hk.2
    | some vin =>
      simp only [hlk] at hr
      cases hcv : clip_value vin spec0 with
      | none => simp only [hcv] at hr; exact Option.noConfusion hr
      | some v =>
        simp only [hcv] at hr
        cases hrec : vacGo params rest with
        | none => simp only [hrec] at hr; exact Option.noConfusion hr
        | some r0 =>
          simp only [hrec, Option.some_inj] at hr
          subst hr
          show List.lookup k (if pyEq v vin = true then r0.2.1 else (k0, (vin, v)) :: r0.2.1) = none
          by_cases hq : pyEq v vin = true
          · rw [if_pos hq]
            exact ih hrec hk.2
          · have hne : (k == k0) = false := beq_eq_false_iff_ne.mpr hk.1
            rw [if_neg hq]
            simp only [List.lookup, hne]
            exact ih hrec hk.2

theorem vacGo_missing {params : PyDict} {schema : Schema} {k : String} {spec : SockSpec}
    {r : PyDict × ClipDict × ViolDict}
    (hnd : (schema.map Prod.fst).Nodup) (hmem : (k, spec) ∈ schema)
    (habs : List.lookup k params = none) (hr : vacGo params schema = some r) :
    List.lookup k r.1 = some (spec.default.getD .none) ∧
    List.lookup k r.2.2 = some "missing->default" ∧
    List.lookup k r.2.1 = none := by
  induction schema generalizing r with
  | nil => simp at hmem
  | cons ks rest ih =>
    rcases ks with ⟨k0, spec0⟩
    simp only [List.map_cons, List.nodup_cons] at hnd
    rcases List.mem_cons.mp hmem with heq | hmem'
    · obtain ⟨rfl, rfl⟩ : k0 = k ∧ spec0 = spec := by
        have h1 := congrArg Prod.fst heq
        have h2 := congrArg Prod.snd heq
        exact ⟨h1.symm, h2.symm⟩
      unfold vacGo at hr
      simp only [habs] at hr
      cases hrec : vacGo params rest with
      | none => simp only [hrec] at hr; exact Option.noConfusion hr
      | some r0 =>
        simp only [hrec, Option.some_inj] at hr
        subst hr
        refine ⟨by simp [List.lookup], by simp [List.lookup], ?_⟩
        exact vacGo_clip_keys hrec hnd.1
    · have hne : k ≠ k0 := by
        intro hkk
        exact hnd.1 (hkk ▸ (List.mem_map.mpr ⟨(k, spec), hmem', rfl⟩))
      have hneb : (k == k0) = false := beq_eq_false_iff_ne.mpr hne
      unfold vacGo at hr
      cases hlk : List.lookup k0 params with
      | none =>
        simp only [hlk] at hr
        cases hrec : vacGo params rest with
        | none => simp only [hrec] at hr; exact Option.noConfusion hr
        | some r0 =>
          simp only [hrec, Option.some_inj] at hr
          subst hr
          obtain ⟨ha, hb, hc⟩ := ih hnd.2 hmem' hrec
          exact ⟨by simpa [List.lookup, hneb] using ha,
                 by simpa [List.lookup, hneb] using hb, hc⟩
      | some vin =>
        simp only [hlk] at hr
        cases hcv : clip_value vin spec0 with
        | none => simp only [hcv] at hr; exact Option.noConfusion hr
        | some v =>
          simp only [hcv] at hr
          cases hrec : vacGo params rest with
          | none => simp only [hrec] at hr; exact Option.noConfusion hr
          | some r0 =>
            simp only [hrec, Option.some_inj] at hr
            subst hr
            obtain ⟨ha, hb, hc⟩ := ih hnd.2 hmem' hrec
            refine ⟨by simpa [List.lookup, hneb] using ha, hb, ?_⟩
            by_cases hq : pyEq v vin = true
            · rw [if_pos hq]
              exact hc
            · rw [if_neg hq]
              simpa [List.lookup, hneb] using hc

theorem pyDictMatch_of_forall2 {a b : PyDict}
    (h : List.Forall₂ (fun x y => x.1 = y.1 ∧ pyEqOrSame x.2 y.2 = true) a b) :
    pyDictMatch a b = true := by
  induction h with
  | nil => rfl
  | @cons x y l1 l2 hh ht ih =>
    simp only [pyDictMatch, Bool.and_eq_true, beq_iff_eq, List.length_cons,
      Nat.add_right_cancel_iff, List.zip_cons_cons, List.all_cons] at ih ⊢
    exact ⟨ih.1, ⟨⟨hh.1, hh.2⟩, ih.2⟩⟩

theorem forall2_match {g1full params : PyDict} : ∀ {schema : Schema} {o1 o2 : PyDict},
    (∀ ks ∈ schema, wfSpec ks.2 = true) →
    List.Forall₂ (fun ks kv => ks.1 = kv.1 ∧ oneVal params ks.1 ks.2 = some kv.2) schema o1 →
    List.Forall₂ (fun ks kv => ks.1 = kv.1 ∧ oneVal g1full ks.1 ks.2 = some kv.2) schema o2 →
    (∀ ks ∈ schema, ∀ v, oneVal params ks.1 ks.2 = some v → List.lookup ks.1 g1full = some v) →
    List.Forall₂ (fun x y => x.1 = y.1 ∧ pyEqOrSame x.2 y.2 = true) o2 o1 := by
  intro schema
  induction schema with
  | nil =>
    intro o1 o2 _ h1 h2 _
    cases h1; cases h2
    exact List.Forall₂.nil
  | cons ks rest ih =>
    intro o1 o2 hwf h1 h2 hlkf
    cases h1 with
    | @cons a1 kv1 l1 o1t hh1 ht1 =>
      cases h2 with
      | @cons a2 kv2 l2 o2t hh2 ht2 =>
        refine List.Forall₂.cons ?_ (ih (fun b hb => hwf b (List.mem_cons_of_mem _ hb)) ht1 ht2
          (fun b hb => hlkf b (List.mem_cons_of_mem _ hb)))
        constructor
        · rw [← hh2.1, hh1.1]
        · have hwfh := hwf ks (List.mem_cons_self _ _)
          have hlk := hlkf ks (List.mem_cons_self _ _) _ hh1.2
          have hcv2 : clip_value kv1.2 ks.2 = some kv2.2 := by
            rw [← hh2.2]
            simp only [oneVal, hlk]
          obtain ⟨w, hw, hEq⟩ := clip_fixed hwfh hh1.2
          have hww : w = kv2.2 := Option.some_inj.mp (hw.symm.trans hcv2)
          rw [← hww]
          exact hEq

/-- C1: for every schema S (well-formed per the data model) and every
candidate mapping C, validate_and_clip(C, S) succeeds and its
validated-params component has exactly the key set of S: the output key list
equals S's key list, so every key of S is present and no key outside S is. -/
theorem c1_validated_keyset (schema : Schema) (params : PyDict)
    (h : wfSchema schema = true) :
    ∃ r, validate_and_clip params schema = some r ∧
      dictKeys r.1 = schema.map Prod.fst := by
  obtain ⟨hwf, _⟩ := wfSchema_parts h
  obtain ⟨g, hg⟩ := vacGo_total (fun ks hks => oneVal_wf_total (hwf ks hks) params ks.1)
  refine ⟨(g.1, g.2.1, g.2.2 ++ unknownKeyViolations params schema), ?_, ?_⟩
  · simp only [validate_and_clip, hg, Option.map_some']
  · have hk := vacGo_keys hg
    exact hk

/-- Witness for C1 at a concrete schema and a candidate holding a junk value
for the schema key plus an extra key. -/
theorem c1_validated_keyset_witness :
    wfSchema [("x", SockSpec.mk (some ("float")) (some (.int 0)) (some (.int 10)) (some (.int 5)))] = true ∧
    ∃ r, validate_and_clip [("x", PVal.str "junk"), ("y", PVal.int 3)]
        [("x", SockSpec.mk (some ("float")) (some (.int 0)) (some (.int 10)) (some (.int 5)))] = some r ∧
      dictKeys r.1 = ["x"] :=
  ⟨by decide, c1_validated_keyset _ _ (by decide)⟩

/-- C3: validate_and_clip is idempotent on its own output: for every
data-model schema S and candidate C, feeding the validated params back in
succeeds and returns params that are dict-equal (Python ==, with the identity
shortcut CPython applies inside container comparison) to the first output. -/
theorem c3_validate_idempotent (schema : Schema) (params : PyDict)
    (h : wfSchema schema = true) :
    ∃ r1 r2, validate_and_clip params schema = some r1 ∧
      validate_and_clip r1.1 schema = some r2 ∧
      pyDictMatch r2.1 r1.1 = true := by
  obtain ⟨hwf, hnd⟩ := wfSchema_parts h
  obtain ⟨g1, hg1⟩ := vacGo_total (fun ks hks => oneVal_wf_total (hwf ks hks) params ks.1)
  have hs1 := vacGo_shape hg1
  have hlkf : ∀ ks ∈ schema, ∀ v, oneVal params ks.1 ks.2 = some v →
      List.lookup ks.1 g1.1 = some v := by
    intro ks hks v hv
    obtain ⟨v0, hv0, hl0⟩ := shape_lookup hs1 hnd hks
    have hvv : v0 = v := Option.some_inj.mp (hv0.symm.trans hv)
    rw [hvv] at hl0
    exact hl0
  have h2tot : ∀ ks ∈ schema, (oneVal g1.1 ks.1 ks.2).isSome := by
    intro ks hks
    obtain ⟨v, hv, hl⟩ := shape_lookup hs1 hnd hks
    have hred : oneVal g1.1 ks.1 ks.2 = clip_value v ks.2 := by
      simp only [oneVal, hl]
    rw [hred]
    exact clip_value_wf_total ks.2 (hwf _ hks) v
  obtain ⟨g2, hg2⟩ := vacGo_total h2tot
  have hs2 := vacGo_shape hg2
  have hr1 : validate_and_clip params schema =
      some (g1.1, g1.2.1, g1.2.2 ++ unknownKeyViolations params schema) := by
    simp only [validate_and_clip, hg1, Option.map_some']
  have hr2 : validate_and_clip g1.1 schema =
      some (g2.1, g2.2.1, g2.2.2 ++ unknownKeyViolations g1.1 schema) := by
    simp only [validate_and_clip, hg2, Option.map_some']
  exact ⟨_, _, hr1, hr2, pyDictMatch_of_forall2 (forall2_match hwf hs1 hs2 hlkf)⟩

/-- Witness for C3 at a concrete schema, with a candidate that exercises the
clipping path, the nan path and the unknown-key path. -/
theorem c3_validate_idempotent_witness :
    wfSchema [("x", SockSpec.mk (some ("float")) (some (.int 0)) (some (.int 10)) (some (.int 5))),
              ("n", SockSpec.mk (some ("integer")) (some (.int 1)) (some (.int 6)) (some (.int 4)))] = true ∧
    ∃ r1 r2, validate_and_clip [("x", PVal.str "nan"), ("junk", PVal.bool true)]
        [("x", SockSpec.mk (some ("float")) (some (.int 0)) (some (.int 10)) (some (.int 5))),
         ("n", SockSpec.mk (some ("integer")) (some (.int 1)) (some (.int 6)) (some (.int 4)))] = some r1 ∧
      validate_and_clip r1.1
        [("x", SockSpec.mk (some ("float")) (some (.int 0)) (some (.int 10)) (some (.int 5))),
         ("n", SockSpec.mk (some ("integer")) (some (.int 1)) (some (.int 6)) (some (.int 4)))] = some r2 ∧
      pyDictMatch r2.1 r1.1 = true :=
  ⟨by decide, c3_validate_idempotent _ _ (by decide)⟩

/-- C10: for every schema key absent from the candidate mapping,
validate_and_clip places the schema entry's default into the validated output
verbatim (spec.get("default"), with no clip_value call, so a missing,
mistyped or out-of-range default appears unchanged), records no ClipReport
entry for that key, and records the violation "missing->default". -/
theorem c10_missing_key_default (schema : Schema) (params : PyDict) (k : String)
    (spec : SockSpec) (r : PyDict × ClipDict × ViolDict)
    (hnd : (schema.map Prod.fst).Nodup) (hmem : (k, spec) ∈ schema)
    (habs : List.lookup k params = none)
    (hr : validate_and_clip params schema = some r) :
    List.lookup k r.1 = some (spec.default.getD .none) ∧
    List.lookup k r.2.2 = some "missing->default" ∧
    List.lookup k r.2.1 = none := by
  unfold validate_and_clip at hr
  cases hg : vacGo params schema with
  | none => rw [hg] at hr; exact Option.noConfusion hr
  | some g =>
    rw [hg] at hr
    simp only [Option.map_some', Option.some_inj] at hr
    subst hr
    obtain ⟨h1, h2, h3⟩ := vacGo_missing hnd hmem habs hg
    exact ⟨h1, lookup_append_left h2, h3⟩

/-- Witness for C10: a default of 99 on a float socket bounded by [0, 10] is
stored verbatim (no clamping) when the key is missing from the candidate. -/
theorem c10_missing_key_default_witness :
    ∃ r, validate_and_clip []
        [("x", SockSpec.mk (some ("float")) (some (.int 0)) (some (.int 10)) (some (.int 99)))] = some r ∧
      List.lookup "x" r.1 = some (PVal.int 99) ∧
      List.lookup "x" r.2.2 = some "missing->default" ∧
      List.lookup "x" r.2.1 = none := by
  refine ⟨_, rfl, ?_⟩
  exact c10_missing_key_default
    [("x", SockSpec.mk (some ("float")) (some (.int 0)) (some (.int 10)) (some (.int 99)))]
    [] "x" (SockSpec.mk (some ("float")) (some (.int 0)) (some (.int 10)) (some (.int 99)))
    _ (by decide) (by decide) rfl rfl

/-- C2: refuted by the code — a candidate value whose float conversion is nan
slips through the clamp, because Python's positional min/max discard neither
bound when every nan comparison is false: for the schema entry x: float in
[0, 10] with default 5 and candidate x = "nan", validate_and_clip stores nan
for x, and nan is in [0, 10] under neither bound (both comparisons false). -/
theorem c2_nan_escapes_range :
    validate_and_clip [("x", PVal.str "nan")]
        [("x", SockSpec.mk (some ("float")) (some (.int 0)) (some (.int 10)) (some (.int 5)))] =
      some ([("x", PVal.float .nan)],
            [("x", (PVal.str "nan", PVal.float .nan))], []) ∧
    PyFloat.leb (.fin 0) .nan = false ∧ PyFloat.leb .nan (.fin 10) = false := by
  decide

/-- C4: counterexample — for the schema entry flag: bool with default false
and the candidate flag = "yes", the claim asserts validated flag = true with
no ClipReport entry for flag; the code does validate flag to true but also
records a clip entry, because the coerced output true differs from the input
string "yes" under Python equality. -/
theorem c4_counterexample :
    ¬ ((validate_and_clip [("flag", PVal.str "yes")]
          [("flag", SockSpec.mk (some ("bool")) none none (some (.bool false)))]).map
        (fun r => (List.lookup "flag" r.1, List.lookup "flag" r.2.1)) =
      some (some (PVal.bool true), none)) := by
  decide

/-- C4 (amended): for the schema entry flag: bool with default false and the
candidate flag = "yes", validate_and_clip returns validated flag = true, a
ClipReport entry recording input "yes" and output true for flag (the coerced
output differs from the input, so the general clip-recording rule applies),
and an empty ViolationReport. -/
theorem c4_amended :
    validate_and_clip [("flag", PVal.str "yes")]
        [("flag", SockSpec.mk (some ("bool")) none none (some (.bool false)))] =
      some ([("flag", PVal.bool true)],
            [("flag", (PVal.str "yes", PVal.bool true))], []) := by
  decide

/-- C5: refuted by the code — for validated flag = true against default
flag = false (no clipping), both values are booleans, yet the per-key
difference is 1/(1 + 1e-9), not 0.3: Python's isinstance(True, int) is true,
so boolean pairs are captured by the numeric branch and the boolean 0.3
branch of confidence_score is unreachable. -/
theorem c5_bool_scored_numeric :
    confidence_score [("flag", PVal.bool true)] [("flag", PVal.bool false)] [] =
      some (.fin (1000000000 / 1000000001)) ∧
    ((1000000000 : ℚ) / 1000000001 ≠ 3 / 10) := by
  constructor
  · norm_num [confidence_score, isNumPy, pyNumValOf, List.lookup, List.mapM, List.mapM.loop,
      List.filter, List.filterMap, List.foldl, List.isEmpty, List.length, Option.getD,
      PyFloat.add, PyFloat.sub, PyFloat.neg, PyFloat.abs, PyFloat.mul, PyFloat.div,
      PyFloat.pymin, PyFloat.pymax, PyFloat.lt, PyFloat.eqb]
  · norm_num

/-- C6: refuted by the code — a schema whose only key is a bool falls into
the degenerate branch of the grammar compiler (taken whenever there are no
numeric keys): its grammar is byte-identical to the grammar of the empty
schema, which accepts only the empty object, so no accepted output can
mention the bool key. -/
theorem c6_bool_only_grammar_degenerate :
    gbnf_for_schema [("flag", SockSpec.mk (some ("bool")) none none (some (.bool false)))] =
      gbnf_for_schema [] := by
  rfl

theorem dropWhile_append_of_all {p : Char → Bool} {l1 l2 : List Char}
    (h : ∀ x ∈ l1, p x = true) :
    List.dropWhile p (l1 ++ l2) = List.dropWhile p l2 := by
  induction l1 with
  | nil => rfl
  | cons c l1 ih =>
    have hc := h c (List.mem_cons_self _ _)
    simp only [List.cons_append, List.dropWhile_cons, hc, if_true]
    exact ih (fun x hx => h x (List.mem_cons_of_mem _ hx))

theorem dropWhile_append_pos {p : Char → Bool} {l1 l2 : List Char}
    (h : List.dropWhile p l1 ≠ []) :
    List.dropWhile p (l1 ++ l2) = List.dropWhile p l1 ++ l2 := by
  induction l1 with
  | nil => simp [List.dropWhile] at h
  | cons c l1 ih =>
    by_cases hc : p c = true
    · simp only [List.cons_append, List.dropWhile_cons, hc, if_true]
      simp only [List.dropWhile_cons, hc, if_true] at h
      exact ih h
    · have hcf : p c = false := by
        cases hpc : p c
        · rfl
        · exact absurd hpc hc
      simp only [List.cons_append, List.dropWhile_cons, hcf]
      simp

theorem upToLastClose_eq (l : List Char) :
    upToLastClose l =
      if rbrace ∈ l then some ((l.reverse.dropWhile (fun c => c ≠ rbrace)).reverse)
      else none := by
  induction l with
  | nil => rfl
  | cons c rest ih =>
    unfold upToLastClose
    by_cases hr : rbrace ∈ rest
    · rw [ih, if_pos hr]
      have hmem : rbrace ∈ rest.reverse := List.mem_reverse.mpr hr
      have hne : List.dropWhile (fun c => c ≠ rbrace) rest.reverse ≠ [] := by
        intro hnil
        have := (List.dropWhile_eq_nil_iff).mp hnil rbrace hmem
        simp at this
      rw [if_pos (List.mem_cons_of_mem _ hr)]
      simp only [List.reverse_cons]
      rw [dropWhile_append_pos hne]
      simp
    · rw [ih, if_neg hr]
      by_cases hc : c = rbrace
      · subst hc
        rw [if_pos rfl, if_pos (List.mem_cons_self _ _)]
        have hall : ∀ x ∈ rest.reverse, (fun c => decide (c ≠ rbrace)) x = true := by
          intro x hx
          have : x ≠ rbrace := by
            intro hxx
            exact hr (hxx ▸ List.mem_reverse.mp hx)
          simp [this]
        simp only [List.reverse_cons]
        rw [dropWhile_append_of_all hall]
        simp [List.dropWhile]
      · rw [if_neg hc, if_neg (by
          simp only [List.mem_cons, not_or]
          exact ⟨fun h => hc h.symm, hr⟩)]

theorem reGreedy_none_of_not_mem {l : List Char} (h : rbrace ∉ l) :
    reGreedySearch l = none := by
  induction l with
  | nil => rfl
  | cons c rest ih =>
    simp only [List.mem_cons, not_or] at h
    unfold reGreedySearch
    by_cases hc : c = lbrace
    · rw [if_pos hc, upToLastClose_eq, if_neg h.2]
      exact ih h.2
    · rw [if_neg hc]
      exact ih h.2

theorem reGreedySearch_eq (s : List Char) :
    reGreedySearch s =
      (if (((s.dropWhile (fun c => c ≠ lbrace)).reverse.dropWhile
            (fun c => c ≠ rbrace)).reverse).isEmpty
       then none
       else some ((s.dropWhile (fun c => c ≠ lbrace)).reverse.dropWhile
            (fun c => c ≠ rbrace)).reverse) := by
  induction s with
  | nil => rfl
  | cons c rest ih =>
    by_cases hc : c = lbrace
    · subst hc
      unfold reGreedySearch
      rw [if_pos rfl]
      have hf : List.dropWhile (fun c => decide (c ≠ lbrace)) (lbrace :: rest) = lbrace :: rest := by
        simp [List.dropWhile]
      rw [hf]
      by_cases hr : rbrace ∈ rest
      · rw [upToLastClose_eq, if_pos hr]
        have hmem : rbrace ∈ rest.reverse := List.mem_reverse.mpr hr
        have hne : List.dropWhile (fun c => c ≠ rbrace) rest.reverse ≠ [] := by
          intro hnil
          have := (List.dropWhile_eq_nil_iff).mp hnil rbrace hmem
          simp at this
        simp only [List.reverse_cons]
        rw [dropWhile_append_pos hne]
        cases hdw : List.dropWhile (fun c => decide (c ≠ rbrace)) rest.reverse with
        | nil => exact absurd hdw hne
        | cons a t => simp
      · rw [upToLastClose_eq, if_neg hr, reGreedy_none_of_not_mem hr]
        have hall : ∀ x ∈ rest.reverse, (fun c => decide (c ≠ rbrace)) x = true := by
          intro x hx
          have : x ≠ rbrace := by
            intro hxx
            exact hr (hxx ▸ List.mem_reverse.mp hx)
          simp [this]
        simp only [List.reverse_cons]
        rw [dropWhile_append_of_all hall]
        simp [List.dropWhile, lbrace, rbrace]
    · unfold reGreedySearch
      rw [if_neg hc, ih]
      have hstep : List.dropWhile (fun c => decide (c ≠ lbrace)) (c :: rest) =
          List.dropWhile (fun c => decide (c ≠ lbrace)) rest := by
        simp [List.dropWhile_cons, hc]
      rw [hstep]

theorem extractSpan_eq_firstToLastSpan (s : List Char) :
    extractSpan s = firstToLastSpan s := by
  simp only [extractSpan, firstToLastSpan, reGreedySearch_eq]
  cases hemp : (((s.dropWhile (fun c => c ≠ lbrace)).reverse.dropWhile
      (fun c => c ≠ rbrace)).reverse).isEmpty with
  | true =>
    have hnil : ((s.dropWhile (fun c => c ≠ lbrace)).reverse.dropWhile
        (fun c => c ≠ rbrace)).reverse = [] := by
      simpa using hemp
    simp [hemp, hnil]
  | false => simp [hemp]

/-- C7 (amended): for every raw text, the JSON text handed to the parser is
the span from the FIRST opening brace through the LAST closing brace (the
regex brace pattern is greedy with DOTALL), falling back to the raw text when
no closing brace follows the first opening brace; in particular for the raw
text with a single object, Sure! ... done., the extracted span is exactly
that object. -/
theorem c7_amended :
    (∀ s : List Char, extractSpan s = firstToLastSpan s) ∧
    extractSpanStr ("Sure! \x7b\"x\": 3\x7d done.") = "\x7b\"x\": 3\x7d" := by
  refine ⟨extractSpan_eq_firstToLastSpan, ?_⟩
  decide

/-- C7: counterexample — on a raw text holding two JSON objects, the code
extracts the whole two-object span (first brace to last brace), while the
first balanced brace span is only the first object, so the extracted text is
not the first balanced span. -/
theorem c7_counterexample :
    firstBalancedSpan (("\x7b\"a\": 1\x7d \x7b\"b\": 2\x7d").toList) =
      some (("\x7b\"a\": 1\x7d").toList) ∧
    extractSpan (("\x7b\"a\": 1\x7d \x7b\"b\": 2\x7d").toList) =
      ("\x7b\"a\": 1\x7d \x7b\"b\": 2\x7d").toList ∧
    extractSpan (("\x7b\"a\": 1\x7d \x7b\"b\": 2\x7d").toList) ≠
      ("\x7b\"a\": 1\x7d").toList := by
  refine ⟨?_, ?_, ?_⟩ <;> decide

/-- C9: both wrappers fail fast with the error tag surfaced verbatim in the
ViolationReport and with no engine interaction at all (empty trace, so no
inference attempt): a missing model path yields ok=false with violations
error: model_missing; an existing model with an empty schema yields ok=false
with violations error: schema_missing. -/
theorem c9_failfast (mp : String) (llamaOk loaded loadOk grammarOk cancel : Bool)
    (schema : Schema) (engine : ℕ → EngineResp) (jl : String → Option PyDict)
    (worker : WorkerResp) :
    (run_llm_soft ⟨false, mp, llamaOk, loaded, loadOk, grammarOk, cancel, engine, jl⟩ schema =
      (some (errResult ("model_missing") ("(unset)")), [])) ∧
    (run_llm_hard ⟨false, mp, cancel, worker, jl⟩ schema =
      (errResult ("model_missing") ("(unset)"), [])) ∧
    (run_llm_soft ⟨true, mp, llamaOk, loaded, loadOk, grammarOk, cancel, engine, jl⟩ [] =
      (some (errResult ("schema_missing") (basename mp)), [])) ∧
    (run_llm_hard ⟨true, mp, cancel, worker, jl⟩ [] =
      (errResult ("schema_missing") (basename mp), [])) :=
  ⟨rfl, rfl, rfl, rfl⟩

/-- C8: counterexample — with the cancellation signal set before the call,
run_llm_hard does return ok=false with violations error: canceled at its
first poll-loop check, but its trace already contains the worker-subprocess
spawn: the Popen happens before any cancellation check, so the claim's
"without invoking the underlying inference engine" is false for the isolated
strategy. -/
theorem c8_counterexample :
    (run_llm_hard ⟨true, "m.gguf", true, WorkerResp.badLine, fun _ => none⟩
        [("flag", SockSpec.mk (some ("bool")) none none (some (.bool false)))]).1 =
      canceledResult ("m.gguf") ∧
    Event.spawnWorker ∈ (run_llm_hard ⟨true, "m.gguf", true, WorkerResp.badLine, fun _ => none⟩
        [("flag", SockSpec.mk (some ("bool")) none none (some (.bool false)))]).2 := by
  refine ⟨rfl, ?_⟩
  decide

/-- C8 (amended): if the cancellation signal is set before the first attempt
(model present, schema nonempty, llama import and model load succeeding),
both wrappers return ok=false with violations error: canceled at their first
attempt-boundary or poll check; run_llm_soft issues no completion call (no
engineCall event in its trace, though it may load the model and build the
grammar first), while run_llm_hard has already written the worker script and
argument file and spawned the worker subprocess before its first check, and
then terminates the worker and removes the argument file without consuming
any output. -/
theorem c8_amended (mp : String) (s0 : String × SockSpec) (rest : Schema)
    (loaded grammarOk : Bool) (engine : ℕ → EngineResp) (jl : String → Option PyDict)
    (worker : WorkerResp) :
    ((run_llm_soft ⟨true, mp, true, loaded, true, grammarOk, true, engine, jl⟩ (s0 :: rest)).1 =
      some (canceledResult (basename mp))) ∧
    (∀ i, Event.engineCall i ∉
      (run_llm_soft ⟨true, mp, true, loaded, true, grammarOk, true, engine, jl⟩ (s0 :: rest)).2) ∧
    ((run_llm_hard ⟨true, mp, true, worker, jl⟩ (s0 :: rest)).1 =
      canceledResult (basename mp)) ∧
    ((run_llm_hard ⟨true, mp, true, worker, jl⟩ (s0 :: rest)).2 =
      [Event.writeWorkerScript, Event.writeArgsFile, Event.spawnWorker,
       Event.terminateWorker, Event.removeArgsFile]) := by
  cases loaded <;>
    exact ⟨rfl, by intro i; simp [run_llm_soft, softAttemptLoop], rfl, rfl⟩
